import Mathlib

/-
Verification of the import-sorter extension controller
(src/src/import-sorter-extension.ts) against its specification.

The development shallowly embeds the controller code:
  * JSON-like configuration values (`JVal`) as association lists in
    property insertion order, matching JavaScript object semantics
    (unique keys, insertion-ordered enumeration);
  * the lodash `merge` deep-overlay used by the code, split into the
    top-level call semantics (`merge`) and the per-property assignment
    semantics (`mergeVal` and `mergeInto`);
  * the dotted-key un-flattening of the project configuration file;
  * `VSCodeConfigurationProvider._getConfiguration` as a pure function
    of an explicit environment (`ConfigEnv`), plus a heap-instrumented
    variant used to state the no-mutation frame property;
  * the `ImportSorterExtension` command handlers as functions producing
    explicit traces of host interactions (apply-edits calls in promise
    order, waitUntil registrations, status-bar messages).
-/

set_option linter.unusedVariables false

namespace ImportSorter

/-- A JSON-like value as manipulated by the extension: primitives plus
objects represented as association lists in property insertion order. -/
inductive JVal where
  | str (s : String)
  | num (n : Int)
  | bool (b : Bool)
  | null
  | obj (fields : List (String × JVal))

/-- Lookup of a property in an object field list (first match, as in a
JavaScript object, whose keys are unique). -/
def lkp : List (String × JVal) → String → Option JVal
  | [], _ => none
  | p :: rest, k => if p.1 = k then some p.2 else lkp rest k

/-- Property assignment on a field list: updates the entry in place when the
key exists (JavaScript keeps the original insertion position), otherwise
appends the new property at the end. -/
def setKey (l : List (String × JVal)) (k : String) (v : JVal) : List (String × JVal) :=
  if (lkp l k).isSome then l.map (fun p => if p.1 = k then (k, v) else p)
  else l ++ [(k, v)]

mutual

/-- Property-level combination performed by lodash baseMerge for one source
property value: a primitive source value is assigned outright; an object
source value is merged recursively into an object destination, and replaces
(a structural copy of the source) any non-object destination. -/
def mergeVal : JVal → JVal → JVal
  | _, .str s => .str s
  | _, .num n => .num n
  | _, .bool b => .bool b
  | _, .null => .null
  | d, .obj sl =>
    match d with
    | .obj dl => .obj (mergeInto dl sl)
    | _ => .obj sl
termination_by d s => sizeOf s

/-- Folds the source property list into the destination field list, one
property at a time, exactly as lodash baseMerge enumerates source keys. -/
def mergeInto : List (String × JVal) → List (String × JVal) → List (String × JVal)
  | dl, [] => dl
  | dl, (k, sv) :: rest =>
    mergeInto
      (setKey dl k
        (match lkp dl k with
          | some dv => mergeVal dv sv
          | none => sv))
      rest
termination_by dl sl => sizeOf sl

end

/-- Top-level lodash `merge(dst, src)` as called by the code: only the
enumerable own properties of the source are merged, so a primitive source
contributes nothing and leaves the destination unchanged; an object source
is folded into an object destination property by property. -/
def merge (d s : JVal) : JVal :=
  match s with
  | .obj sl =>
    match d with
    | .obj dl => .obj (mergeInto dl sl)
    | _ => .obj sl
  | _ => d

/-- Builds the nested singleton object that the per-key reduce in
`_getConfiguration` constructs for one dotted key (lines 66-76): an empty
segment list leaves the accumulator object empty. -/
def buildFragment : List String → JVal → JVal
  | [], _ => .obj []
  | [k], v => .obj [(k, v)]
  | k :: k2 :: rest, v => .obj [(k, buildFragment (k2 :: rest) v)]

/-- Character-level splitting on the dot separator, the semantics of the
JavaScript `key.split(".")` for the one-character separator. -/
def splitDotAux : List Char → List Char → List String
  | acc, [] => [String.mk acc.reverse]
  | acc, c :: rest =>
    if c = '.' then String.mk acc.reverse :: splitDotAux [] rest
    else splitDotAux (c :: acc) rest

/-- Splits a string on every dot; the empty string yields one empty
segment, as in JavaScript. -/
def splitDot (s : String) : List String :=
  splitDotAux [] s.data

/-- Splits one raw file-configuration key on dots and drops every segment
equal to the extension namespace, as in
`key.split(".").filter((str) => str !== "importSorter")`. -/
def stripKeys (key : String) : List String :=
  (splitDot key).filter (fun s => s ≠ "importSorter")

/-- Un-flattens the parsed file configuration: one nested fragment per raw
key, reduced with the lodash merge starting from the empty object
(lines 64-78 of the source). -/
def unflatten (kvs : List (String × JVal)) : JVal :=
  (kvs.map (fun kv => buildFragment (stripKeys kv.1) kv.2)).foldl merge (.obj [])

/-- JavaScript truthiness of a value (arrays are not modelled; objects are
always truthy, as is every primitive except empty string, zero, false and
null). -/
def jsTruthy : JVal → Bool
  | .str s => s ≠ ""
  | .num n => n ≠ 0
  | .bool b => b
  | .null => false
  | .obj _ => true

/-- Member access `v.k` in JavaScript: a property lookup on an object,
undefined (None) on a primitive. -/
def jlookup : JVal → String → Option JVal
  | .obj l, k => lkp l k
  | _, _ => none

/-- Truthiness of a possibly-undefined value. -/
def jsTruthyOpt : Option JVal → Bool
  | none => false
  | some v => jsTruthy v

/-- Models the expression `fileConfig.k || \x7b\x7d` of the source: the
property value when present and truthy, the empty object otherwise. -/
def orEmpty (v : JVal) (k : String) : JVal :=
  match jlookup v k with
  | some w => if jsTruthy w then w else .obj []
  | none => .obj []

/-- String conversion performed by a JavaScript template literal. -/
def jsString : JVal → String
  | .str s => s
  | .num n => toString n
  | .bool b => if b then "true" else "false"
  | .null => "null"
  | .obj _ => "[object Object]"

/-- Template-literal conversion of a possibly-undefined value. -/
def jsStringOpt : Option JVal → String
  | some v => jsString v
  | none => "undefined"

/-- The path separator; the concrete platform value is irrelevant to every
claim (only the relative configured path is ever compared). -/
def sep : String := "/"

/-- The warning text shown when a non-default configuration file path does
not exist (line 56 of the source). -/
def configNotFoundMsg : String :=
  "configurationFilePath is not found by the following path, import sorter will proceed with defaults from settings"

/-- The environment `_getConfiguration` reads: the workspace root, the three
sub-configuration values returned by the host settings lookup, the file
system, and the compiled-in default configuration file path
(`defaultGeneralConfiguration.configurationFilePath`, defined in the core
module outside src, hence kept abstract as an environment field). -/
structure ConfigEnv where
  rootPath : String
  defaultConfigurationFilePath : String
  generalSettings : JVal
  sortSettings : JVal
  importStringSettings : JVal
  fsExists : String → Bool
  fileContents : String → List (String × JVal)

/-- The three merged sub-configurations returned by `_getConfiguration`. -/
structure ImportSorterConfiguration where
  sortConfiguration : JVal
  importStringConfiguration : JVal
  generalConfiguration : JVal

/-- Result of one configuration resolution: the user-visible status-bar
warnings emitted plus the effective configuration. -/
structure ResolutionResult where
  warnings : List String
  configuration : ImportSorterConfiguration

/-- The configured relative path read from the (cloned) general settings,
`generalConfig.configurationFilePath`, converted as a template literal. -/
def configuredPath (env : ConfigEnv) : String :=
  jsStringOpt (jlookup env.generalSettings "configurationFilePath")

/-- The raw configured value `generalConfig.configurationFilePath`, as
compared by the strict inequality of the warning condition. -/
def configuredPathValue (env : ConfigEnv) : Option JVal :=
  jlookup env.generalSettings "configurationFilePath"

/-- JavaScript strict equality of a possibly-undefined value against a
string constant, the comparison the warning condition performs against the
compiled-in default path. -/
def strictEqStr : Option JVal → String → Bool
  | some (.str s), t => s = t
  | _, _ => false

/-- The absolute configuration file path
`workspace.rootPath + sep + generalConfig.configurationFilePath`. -/
def configFullPath (env : ConfigEnv) : String :=
  env.rootPath ++ sep ++ configuredPath env

/-- The parsed file configuration object: the file contents when the file
exists, the empty object (JSON.parse of the literal string) otherwise. -/
def fileConfigJsonObj (env : ConfigEnv) : List (String × JVal) :=
  if env.fsExists (configFullPath env) then env.fileContents (configFullPath env) else []

/-- Shallow embedding of `VSCodeConfigurationProvider._getConfiguration`
(lines 34-111): clone the three settings values (pure values here, so the
clone is the value itself; the heap-instrumented variant below tracks the
mutation discipline), warn when a non-default configured path is missing,
un-flatten the file configuration, and deep-overlay each file sub-fragment
onto the corresponding cloned settings value with lodash merge. -/
def getConfigurationImpl (env : ConfigEnv) : ResolutionResult :=
  let generalConfig := env.generalSettings
  let isConfigExist := env.fsExists (configFullPath env)
  let warnings :=
    if isConfigExist = false
        ∧ strictEqStr (configuredPathValue env) env.defaultConfigurationFilePath = false
    then [configNotFoundMsg] else []
  let fileConfig := unflatten (fileConfigJsonObj env)
  let sortConfig := env.sortSettings
  let importStringConfig := env.importStringSettings
  { warnings := warnings
    configuration :=
      { sortConfiguration := merge sortConfig (orEmpty fileConfig "sortConfiguration")
        importStringConfiguration :=
          merge importStringConfig (orEmpty fileConfig "importStringConfiguration")
        generalConfiguration := merge generalConfig (orEmpty fileConfig "generalConfiguration") } }

/-- Modelled from the spec: the host settings lookup
`workspace.getConfiguration(ns).get(section)` (coc.nvim, outside this
repository) returns the compiled-in defaults deep-overlaid with the user
settings for that section, so the editor value already encodes the defaults
(spec section 4.1, step 6). -/
def hostSettingsValue (defaults userSettings : JVal) : JVal :=
  merge defaults userSettings

/-- Selector for the three sub-configurations. -/
inductive SubCfg where
  | general
  | sort
  | importString

/-- The settings value the environment carries for one sub-configuration. -/
def envSettingsOf (env : ConfigEnv) : SubCfg → JVal
  | .general => env.generalSettings
  | .sort => env.sortSettings
  | .importString => env.importStringSettings

/-- The top-level file-configuration key of one sub-configuration. -/
def fileKeyOf : SubCfg → String
  | .general => "generalConfiguration"
  | .sort => "sortConfiguration"
  | .importString => "importStringConfiguration"

/-- Projection of one sub-configuration out of the resolved configuration. -/
def subConfigOf (c : ImportSorterConfiguration) : SubCfg → JVal
  | .general => c.generalConfiguration
  | .sort => c.sortConfiguration
  | .importString => c.importStringConfiguration

/-- True exactly on primitive (non-object) values. -/
def isAtom : JVal → Bool
  | .obj _ => false
  | _ => true

/-- Keys of an object field list, in insertion order. -/
def keysOf (l : List (String × JVal)) : List String :=
  l.map Prod.fst

/-- Key uniqueness of an object field list, the invariant every JavaScript
object satisfies. -/
def nodupKeys (l : List (String × JVal)) : Prop :=
  (keysOf l).Nodup

/-! ## Heap-instrumented configuration resolution

The pure embedding above cannot distinguish `cloneDeep(x)` from `x`. To
state the frame property (the controller never mutates the host-owned
settings objects) we re-run `_getConfiguration` over an explicit store of
mutable cells: each settings object returned by the host lookup is one
cell; `cloneDeep` allocates a fresh cell holding the same value; the lodash
`merge(dst, src)` call writes its merged result back into the destination
cell, exactly as the real merge mutates its first argument. -/

/-- A store of mutable JavaScript objects: cells indexed by reference,
together with the next fresh reference. -/
structure Store where
  cells : List (Nat × JVal)
  next : Nat

/-- Reference lookup in the cell list. -/
def lkpRef : List (Nat × JVal) → Nat → Option JVal
  | [], _ => none
  | p :: rest, r => if p.1 = r then some p.2 else lkpRef rest r

/-- Reads the object a reference denotes. -/
def Store.read (s : Store) (r : Nat) : Option JVal :=
  lkpRef s.cells r

/-- Overwrites the object a reference denotes. -/
def Store.write (s : Store) (r : Nat) (v : JVal) : Store :=
  { s with cells := s.cells.map (fun p => if p.1 = r then (r, v) else p) }

/-- Allocates a fresh cell holding a value. -/
def Store.alloc (s : Store) (v : JVal) : Nat × Store :=
  (s.next, { cells := s.cells ++ [(s.next, v)], next := s.next + 1 })

/-- `cloneDeep`: allocates a fresh object with the same value, leaving the
source untouched. -/
def cloneDeep (s : Store) (r : Nat) : Nat × Store :=
  s.alloc ((s.read r).getD .null)

/-- The mutating lodash `merge(dst, src)` call: writes the merged value into
the destination cell and returns the destination reference. -/
def mergeRef (s : Store) (dst : Nat) (src : JVal) : Nat × Store :=
  (dst, s.write dst (merge ((s.read dst).getD .null) src))

/-- Store wellformedness: every allocated reference is below the fresh
counter. -/
def Store.wf (s : Store) : Prop :=
  ∀ p ∈ s.cells, p.1 < s.next

/-- The environment of the heap-instrumented resolution: as `ConfigEnv` but
with the three settings objects living in the store. -/
structure HeapEnv where
  rootPath : String
  defaultConfigurationFilePath : String
  fsExists : String → Bool
  fileContents : String → List (String × JVal)

/-- References to the three merged sub-configuration objects returned by the
heap-instrumented resolution. -/
structure ConfigRefs where
  sortConfiguration : Nat
  importStringConfiguration : Nat
  generalConfiguration : Nat

/-- Heap-instrumented `_getConfiguration`, following the source order of
operations: clone the general settings, compute the path and the missing-file
warning, un-flatten the file configuration, clone the sort and import-string
settings, then issue the three mutating merges (lines 94-105), each of which
writes only its destination clone. -/
def getConfigurationHeap (env : HeapEnv) (s0 : Store)
    (generalRef sortRef importStringRef : Nat) :
    Store × ConfigRefs × List String :=
  let c1 := cloneDeep s0 generalRef
  let generalConfig := c1.1
  let s1 := c1.2
  let pathVal := jlookup ((s1.read generalConfig).getD .null) "configurationFilePath"
  let configPath := env.rootPath ++ sep ++ jsStringOpt pathVal
  let isConfigExist := env.fsExists configPath
  let warnings :=
    if isConfigExist = false ∧ strictEqStr pathVal env.defaultConfigurationFilePath = false
    then [configNotFoundMsg] else []
  let fileObj := if isConfigExist then env.fileContents configPath else []
  let fileConfig := unflatten fileObj
  let c2 := cloneDeep s1 sortRef
  let sortConfig := c2.1
  let s2 := c2.2
  let c3 := cloneDeep s2 importStringRef
  let importStringConfig := c3.1
  let s3 := c3.2
  let m1 := mergeRef s3 sortConfig (orEmpty fileConfig "sortConfiguration")
  let s4 := m1.2
  let m2 := mergeRef s4 importStringConfig (orEmpty fileConfig "importStringConfiguration")
  let s5 := m2.2
  let m3 := mergeRef s5 generalConfig (orEmpty fileConfig "generalConfiguration")
  let s6 := m3.2
  (s6, ⟨m1.1, m2.1, m3.1⟩, warnings)

/-! ## The edit-commit controller -/

/-- A delete range of a `SortResult` (`LineRange` of the core module),
carrying start and end line and character offsets. -/
structure LineRange where
  startLine : Nat
  startCharacter : Nat
  endLine : Nat
  endCharacter : Nat

/-- The `SortResult` produced by the external import-processing service. -/
structure ImportData where
  isSortRequired : Bool
  rangesToDelete : List LineRange
  firstLineNumberToInsertText : Nat
  sortedImportsText : String

/-- An LSP text edit as constructed by the controller. -/
inductive TextEditModel where
  | del (startLine startCharacter endLine endCharacter : Nat)
  | insert (line character : Nat) (newText : String)

/-- The delete edits built from the sort result, one per delete range, in
sequence order (lines 193-198). -/
def deleteEditsOf (d : ImportData) : List TextEditModel :=
  d.rangesToDelete.map (fun x => .del x.startLine x.startCharacter x.endLine x.endCharacter)

/-- The single insert edit: the sorted block plus a trailing line break at
the computed insertion line, character 0 (lines 201-204 and 210-213). -/
def insertEditOf (d : ImportData) : TextEditModel :=
  .insert d.firstLineNumberToInsertText 0 (d.sortedImportsText ++ "\n")

/-- Host interactions of one single-document sort: the edit lists registered
with the save interception (`event.waitUntil`), the `applyEdits` batches in
issue order (a later batch is issued only inside the resolution continuation
of the previous one, so list order is the promise order), and the
status-bar messages shown. -/
structure DocumentSortOutput where
  waitUntilEdits : List (List TextEditModel)
  applyEditsCalls : List (List TextEditModel)
  statusMessages : List String

/-- Shallow embedding of `ImportSorterExtension.sortActiveDocumentImports`
(lines 182-223). The injected service call
`getSortImportData(doc.uri, text)` is passed in as an `Except` value: an
exception it raises is caught by the surrounding try/catch and rendered as
one status-bar message built from the error message. On the pre-save path
(`isEventPath`) the delete edits and the insert edit are registered as one
combined list with `event.waitUntil`; otherwise the delete batch is applied
first and the insert batch is applied in its resolution continuation. -/
def sortActiveDocumentImports (isEventPath : Bool)
    (getSortImportData : Except String ImportData) : DocumentSortOutput :=
  match getSortImportData with
  | .error e =>
    { waitUntilEdits := []
      applyEditsCalls := []
      statusMessages := [s!"Typescript import sorter failed with - {e}. Please log a bug."] }
  | .ok importData =>
    if importData.isSortRequired = false then
      { waitUntilEdits := [], applyEditsCalls := [], statusMessages := [] }
    else
      let deleteEdits := deleteEditsOf importData
      if isEventPath then
        { waitUntilEdits := [deleteEdits ++ [insertEditOf importData]]
          applyEditsCalls := []
          statusMessages := [] }
      else
        { waitUntilEdits := []
          applyEditsCalls := [deleteEdits, [insertEditOf importData]]
          statusMessages := [] }

/-- A text document as far as the eligibility gate inspects it. -/
structure TextDocument where
  languageId : String

/-- The notice naming the supported language identifiers (lines 244-245). -/
def supportedLanguagesMsg : String :=
  "Import Sorter currently only supports typescript (.ts) or typescriptreact (.tsx) language files"

/-- Shallow embedding of `ImportSorterExtension.isSortAllowed`
(lines 225-248): returns whether sorting is allowed together with the
status-bar notices shown. An absent document is rejected before the
language check. -/
def isSortAllowed (document : Option TextDocument)
    (isFileExtensionErrorIgnored : Bool) : Bool × List String :=
  match document with
  | none => (false, [])
  | some doc =>
    if doc.languageId = "typescript" ∨ doc.languageId = "typescriptreact" then
      (true, [])
    else if isFileExtensionErrorIgnored then
      (false, [])
    else
      (false, [supportedLanguagesMsg])

/-- Output of a top-level command handler: the resolution warnings emitted
by `resetConfiguration`, the eligibility notices, and the single-document
sort interactions. -/
structure HandlerOutput where
  configWarnings : List String
  gateNotices : List String
  sortOutput : DocumentSortOutput

/-- An empty single-document sort output. -/
def noSortOutput : DocumentSortOutput :=
  { waitUntilEdits := [], applyEditsCalls := [], statusMessages := [] }

/-- Shallow embedding of
`ImportSorterExtension.sortActiveDocumentImportsFromCommand`
(lines 131-140): gate with mismatch notices enabled, reset the
configuration, then run the explicit-command sort path. -/
def sortActiveDocumentImportsFromCommand (env : ConfigEnv)
    (document : Option TextDocument)
    (getSortImportData : Except String ImportData) : HandlerOutput :=
  let gate := isSortAllowed document false
  if gate.1 = false then
    { configWarnings := [], gateNotices := gate.2, sortOutput := noSortOutput }
  else
    let res := getConfigurationImpl env
    { configWarnings := res.warnings
      gateNotices := gate.2
      sortOutput := sortActiveDocumentImports false getSortImportData }

/-- Shallow embedding of
`ImportSorterExtension.sortModifiedDocumentImportsFromOnBeforeSaveCommand`
(lines 166-180): reset the configuration, return unless the
`sortOnBeforeSave` flag of the resolved general configuration is truthy,
gate with mismatch tolerated, then run the pre-save sort path. -/
def sortModifiedDocumentImportsFromOnBeforeSaveCommand (env : ConfigEnv)
    (document : Option TextDocument)
    (getSortImportData : Except String ImportData) : HandlerOutput :=
  let res := getConfigurationImpl env
  let isSortOnBeforeSaveEnabled :=
    jsTruthyOpt (jlookup res.configuration.generalConfiguration "sortOnBeforeSave")
  if isSortOnBeforeSaveEnabled = false then
    { configWarnings := res.warnings, gateNotices := [], sortOutput := noSortOutput }
  else
    let gate := isSortAllowed document true
    if gate.1 = false then
      { configWarnings := res.warnings, gateNotices := gate.2, sortOutput := noSortOutput }
    else
      { configWarnings := res.warnings
        gateNotices := gate.2
        sortOutput := sortActiveDocumentImports true getSortImportData }

/-! ## The directory batch -/

/-- One event of the per-file completion stream the import-processing
service returns for a directory (an RxJS observable: zero or more next
events, optionally terminated by an error which ends the stream). -/
inductive StreamEv where
  | next
  | error (msg : String)

/-- Output of one directory batch: the successive status-bar texts in the
order they are shown, whether the delayed hide of the indicator was
scheduled, and the outcome of the returned promise (a stream error rejects
the promise returned to the host, since no handler catches it). -/
structure DirOutput where
  statusTexts : List String
  hideScheduled : Bool
  outcome : Except String Unit

/-- The piped stream `map(1) / scan(+) / map(set status text)` of
lines 150-157: returns the status texts emitted for the processed prefix
and the completion outcome; events after an error are never delivered. -/
def dirPipeline : Nat → List StreamEv → List String × Except String Unit
  | _, [] => ([], .ok ())
  | acc, .next :: rest =>
    let c := acc + 1
    let out := dirPipeline c rest
    (s!"{c} - sorted" :: out.1, out.2)
  | _, .error e :: _ => ([], .error e)

/-- Shallow embedding of `ImportSorterExtension.sortImportsInDirectories`
(lines 142-164): show the initial progress text, stream the per-file
completions through the counting pipeline (the `delay` operator only
shifts timing and preserves order), and on fulfilment of the resulting
promise show the terminal text and schedule the delayed hide; on rejection
the `then` continuation never runs and the rejection propagates. -/
def sortImportsInDirectories (events : List StreamEv) : DirOutput :=
  let piped := dirPipeline 0 events
  match piped.2 with
  | .ok _ =>
    { statusTexts := "Import sorter: sorting..." :: piped.1 ++ ["done."]
      hideScheduled := true
      outcome := .ok () }
  | .error e =>
    { statusTexts := "Import sorter: sorting..." :: piped.1
      hideScheduled := false
      outcome := .error e }

/-- Modelled from the spec (claim C10 wording): the combined edit list of a
sort result, written independently from the code, directly following the
words of the claim: one delete per entry of `rangesToDelete` in sequence
order, from (startLine, startCharacter) to (endLine, endCharacter), followed
by the single insert of `sortedImportsText` plus a trailing line break at
line `firstLineNumberToInsertText`, character 0. -/
def specCombinedEdits (d : ImportData) : List TextEditModel :=
  (d.rangesToDelete.map
    (fun r => TextEditModel.del r.startLine r.startCharacter r.endLine r.endCharacter))
  ++ [TextEditModel.insert d.firstLineNumberToInsertText 0 (d.sortedImportsText ++ "\n")]

/-! ## Association list and merge lemmas -/

theorem lkp_append (l1 l2 : List (String × JVal)) (k : String) :
    lkp (l1 ++ l2) k = match lkp l1 k with | some v => some v | none => lkp l2 k := by
  induction l1 with
  | nil => simp [lkp]
  | cons p rest ih =>
    by_cases h : p.1 = k <;> simp [lkp, h, ih]

theorem lkp_map_update (l : List (String × JVal)) (k : String) (v : JVal) (k2 : String) :
    lkp (l.map (fun p => if p.1 = k then (k, v) else p)) k2 =
      if k2 = k then (lkp l k).map (fun _ => v) else lkp l k2 := by
  induction l with
  | nil => simp [lkp]
  | cons p rest ih =>
    by_cases hp : p.1 = k
    · by_cases h2 : k2 = k
      · subst h2; simp [lkp, hp]
      · have : ¬ (k = k2) := fun he => h2 he.symm
        simp [lkp, hp, h2, this, ih]
    · by_cases h2 : p.1 = k2
      · have hk2 : ¬ (k2 = k) := by
          intro he; rw [he] at h2; exact hp h2
        simp [lkp, hp, h2, hk2]
      · simp [lkp, hp, h2, ih]

theorem lkp_setKey (l : List (String × JVal)) (k : String) (v : JVal) (k2 : String) :
    lkp (setKey l k v) k2 = if k2 = k then some v else lkp l k2 := by
  unfold setKey
  cases hl : lkp l k with
  | some w =>
    simp only [hl, Option.isSome_some, if_true, lkp_map_update, hl]
    by_cases h2 : k2 = k <;> simp [h2]
  | none =>
    simp only [hl, Option.isSome_none, Bool.false_eq_true, if_false, lkp_append]
    by_cases h2 : k2 = k
    · subst h2; simp [hl, lkp]
    · have : ¬ (k = k2) := fun he => h2 he.symm
      cases h3 : lkp l k2 <;> simp [lkp, h2, this, h3]

theorem lkp_eq_none_iff (l : List (String × JVal)) (k : String) :
    lkp l k = none ↔ k ∉ keysOf l := by
  induction l with
  | nil => simp [lkp, keysOf]
  | cons p rest ih =>
    by_cases h : p.1 = k
    · subst h
      simp [lkp, keysOf]
    · have hne : ¬ (k = p.1) := fun he => h he.symm
      simp [lkp, keysOf, h, hne] at ih ⊢
      exact ih

theorem lkp_mem {l : List (String × JVal)} {k : String} {v : JVal}
    (h : lkp l k = some v) : (k, v) ∈ l := by
  induction l with
  | nil => simp [lkp] at h
  | cons p rest ih =>
    obtain ⟨a, b⟩ := p
    by_cases hp : a = k
    · simp [lkp, hp] at h
      subst hp; subst h
      exact List.mem_cons_self _ _
    · simp only [lkp, hp, if_false] at h
      exact List.mem_cons_of_mem _ (ih h)

theorem lkp_of_mem_nodup {l : List (String × JVal)} {k : String} {v : JVal}
    (hn : nodupKeys l) (h : (k, v) ∈ l) : lkp l k = some v := by
  induction l with
  | nil => simp at h
  | cons p rest ih =>
    simp only [nodupKeys, keysOf, List.map_cons, List.nodup_cons] at hn
    rcases List.mem_cons.mp h with h1 | h1
    · subst h1; simp [lkp]
    · have hk : p.1 ≠ k := by
        intro he
        exact hn.1 (he ▸ (List.mem_map.mpr ⟨(k, v), h1, rfl⟩))
      simp only [lkp, hk, if_false]
      exact ih hn.2 h1

theorem keysOf_setKey (l : List (String × JVal)) (k : String) (v : JVal) :
    keysOf (setKey l k v) = if (lkp l k).isSome then keysOf l else keysOf l ++ [k] := by
  unfold setKey
  cases hl : lkp l k with
  | some w =>
    simp only [Option.isSome_some, if_true, keysOf, List.map_map]
    refine List.map_congr_left ?_
    intro p hp
    by_cases h : p.1 = k <;> simp [h]
  | none => simp [keysOf]

theorem nodupKeys_setKey {l : List (String × JVal)} (k : String) (v : JVal)
    (hn : nodupKeys l) : nodupKeys (setKey l k v) := by
  unfold nodupKeys
  rw [keysOf_setKey]
  cases hl : lkp l k with
  | some w => simpa using hn
  | none =>
    have hk : k ∉ keysOf l := (lkp_eq_none_iff l k).mp hl
    simp only [Option.isSome_none, Bool.false_eq_true, if_false]
    rw [List.nodup_append]
    exact ⟨hn, List.nodup_singleton k, by simpa using hk⟩

theorem lkp_mergeInto (sl : List (String × JVal)) :
    ∀ (dl : List (String × JVal)) (k : String), nodupKeys sl →
    lkp (mergeInto dl sl) k =
      match lkp sl k with
      | some sv => some (match lkp dl k with | some dv => mergeVal dv sv | none => sv)
      | none => lkp dl k := by
  induction sl with
  | nil => intro dl k _; simp [mergeInto, lkp]
  | cons p rest ih =>
    intro dl k hn
    obtain ⟨k0, sv⟩ := p
    simp only [nodupKeys, keysOf, List.map_cons, List.nodup_cons] at hn
    rw [mergeInto]
    rw [ih _ k hn.2]
    by_cases hk : k0 = k
    · subst hk
      have hrest : lkp rest k0 = none := by
        rw [lkp_eq_none_iff]
        simpa [keysOf] using hn.1
      simp [lkp, hrest, lkp_setKey]
    · have hkk : ¬ (k = k0) := fun he => hk he.symm
      simp only [lkp, hk, if_false]
      cases h2 : lkp rest k <;> simp [lkp_setKey, hkk]

theorem nodupKeys_mergeInto (sl : List (String × JVal)) :
    ∀ dl, nodupKeys dl → nodupKeys (mergeInto dl sl) := by
  induction sl with
  | nil => intro dl h; simpa [mergeInto] using h
  | cons p rest ih =>
    intro dl h
    rw [mergeInto]
    exact ih _ (nodupKeys_setKey _ _ h)

/-! ## Wellformedness and idempotence of the deep merge -/



/-- Wellformedness of a JSON value: every object level has unique keys, the
invariant of every value that denotes an actual JavaScript object. -/
def wfJ : JVal → Prop
  | .str _ => True
  | .num _ => True
  | .bool _ => True
  | .null => True
  | .obj l => nodupKeys l ∧ ∀ p ∈ l, wfJ p.2
decreasing_by
  rename_i l hmem
  have h1 := List.sizeOf_lt_of_mem hmem
  obtain ⟨a, b⟩ := p
  simp at h1 ⊢
  omega



theorem wfJ_obj (l : List (String × JVal)) :
    wfJ (.obj l) ↔ nodupKeys l ∧ ∀ p ∈ l, wfJ p.2 := by
  rw [wfJ]

theorem wfJ_atom {v : JVal} (h : isAtom v = true) : wfJ v := by
  cases v <;> simp [isAtom] at h ⊢ <;> rw [wfJ] <;> trivial

theorem mem_setKey {l : List (String × JVal)} {k : String} {v : JVal} {p : String × JVal}
    (h : p ∈ setKey l k v) : p ∈ l ∨ p = (k, v) := by
  unfold setKey at h
  split at h
  · rcases List.mem_map.mp h with ⟨q, hq, he⟩
    by_cases hqk : q.1 = k
    · simp only [hqk, if_true] at he
      right; exact he.symm
    · simp only [hqk, if_false] at he
      left; exact he ▸ hq
  · rcases List.mem_append.mp h with h1 | h1
    · left; exact h1
    · right; simpa using h1

theorem mergeInto_values_wf : ∀ (sl dl : List (String × JVal)),
    (∀ p ∈ dl, wfJ p.2) → (∀ p ∈ sl, wfJ p.2) →
    (∀ p ∈ sl, ∀ d, wfJ d → wfJ (mergeVal d p.2)) →
    ∀ p ∈ mergeInto dl sl, wfJ p.2 := by
  intro sl
  induction sl with
  | nil =>
    intro dl hdl _ _ p hp
    rw [mergeInto] at hp
    exact hdl p hp
  | cons q rest ih =>
    intro dl hdl hsl hrec p hp
    obtain ⟨k, sv⟩ := q
    rw [mergeInto] at hp
    refine ih _ ?_ (fun r hr => hsl r (List.mem_cons_of_mem _ hr))
      (fun r hr => hrec r (List.mem_cons_of_mem _ hr)) p hp
    intro r hr
    rcases mem_setKey hr with h1 | h1
    · exact hdl r h1
    · subst h1
      cases hl : lkp dl k with
      | some dv =>
        simp only [hl]
        exact hrec (k, sv) (List.mem_cons_self _ _) dv (hdl _ (lkp_mem hl))
      | none =>
        simp only [hl]
        exact hsl (k, sv) (List.mem_cons_self _ _)

theorem wf_mergeVal_aux : ∀ n : Nat, ∀ s : JVal, sizeOf s ≤ n →
    ∀ d : JVal, wfJ d → wfJ s → wfJ (mergeVal d s) := by
  intro n
  induction n using Nat.strong_induction_on with
  | _ n ih =>
    intro s hsn d hd hs
    cases s with
    | str a => rw [mergeVal, wfJ]; trivial
    | num a => rw [mergeVal, wfJ]; trivial
    | bool a => rw [mergeVal, wfJ]; trivial
    | null => rw [mergeVal, wfJ]; trivial
    | obj sl =>
      rw [wfJ_obj] at hs
      cases d with
      | obj dl =>
        rw [wfJ_obj] at hd
        have heq : mergeVal (.obj dl) (.obj sl) = .obj (mergeInto dl sl) := by
          rw [mergeVal]
        rw [heq, wfJ_obj]
        refine ⟨nodupKeys_mergeInto sl dl hd.1, ?_⟩
        refine mergeInto_values_wf sl dl hd.2 hs.2 ?_
        intro p hp d2 hd2
        have hlt : sizeOf p.2 < sizeOf (JVal.obj sl) := by
          have h1 := List.sizeOf_lt_of_mem hp
          obtain ⟨a, b⟩ := p
          simp at h1 ⊢
          omega
        have hle : sizeOf p.2 ≤ sizeOf p.2 := le_refl _
        exact ih (sizeOf p.2) (by omega) p.2 (le_refl _) d2 hd2 (hs.2 p hp)
      | str a =>
        simp only [mergeVal]
        exact (wfJ_obj sl).mpr hs
      | num a =>
        simp only [mergeVal]
        exact (wfJ_obj sl).mpr hs
      | bool a =>
        simp only [mergeVal]
        exact (wfJ_obj sl).mpr hs
      | null =>
        simp only [mergeVal]
        exact (wfJ_obj sl).mpr hs

theorem wf_mergeVal {d s : JVal} (hd : wfJ d) (hs : wfJ s) : wfJ (mergeVal d s) :=
  wf_mergeVal_aux (sizeOf s) s (le_refl _) d hd hs

theorem wf_merge {d s : JVal} (hd : wfJ d) (hs : wfJ s) : wfJ (merge d s) := by
  cases s with
  | obj sl =>
    cases d with
    | obj dl =>
      have heq : merge (.obj dl) (.obj sl) = mergeVal (.obj dl) (.obj sl) := by
        rw [merge, mergeVal]
      rw [heq]
      exact wf_mergeVal hd hs
    | str a => simp only [merge]; exact hs
    | num a => simp only [merge]; exact hs
    | bool a => simp only [merge]; exact hs
    | null => simp only [merge]; exact hs
  | str a => simp only [merge]; exact hd
  | num a => simp only [merge]; exact hd
  | bool a => simp only [merge]; exact hd
  | null => simp only [merge]; exact hd



theorem setKey_self {l : List (String × JVal)} {k : String} {v : JVal}
    (hn : nodupKeys l) (h : lkp l k = some v) : setKey l k v = l := by
  unfold setKey
  simp only [h, Option.isSome_some, if_true]
  have hcong : ∀ p ∈ l, (if p.1 = k then (k, v) else p) = p := by
    intro p hp
    obtain ⟨a, b⟩ := p
    by_cases hpk : a = k
    · subst hpk
      have hb : lkp l a = some b := lkp_of_mem_nodup hn hp
      rw [h] at hb
      simp at hb ⊢
      exact hb
    · simp [hpk]
  calc l.map (fun p => if p.1 = k then (k, v) else p) = l.map id := List.map_congr_left hcong
    _ = l := List.map_id l

theorem mergeInto_self : ∀ (sl dl : List (String × JVal)), nodupKeys dl →
    (∀ p ∈ sl, lkp dl p.1 = some p.2) →
    (∀ p ∈ sl, mergeVal p.2 p.2 = p.2) →
    mergeInto dl sl = dl := by
  intro sl
  induction sl with
  | nil => intro dl _ _ _; rw [mergeInto]
  | cons q rest ih =>
    intro dl hn hlk hself
    obtain ⟨k, sv⟩ := q
    rw [mergeInto]
    have h1 : lkp dl k = some sv := hlk (k, sv) (List.mem_cons_self _ _)
    have h2 : mergeVal sv sv = sv := hself (k, sv) (List.mem_cons_self _ _)
    simp only [h1, h2]
    rw [setKey_self hn h1]
    exact ih dl hn (fun p hp => hlk p (List.mem_cons_of_mem _ hp))
      (fun p hp => hself p (List.mem_cons_of_mem _ hp))

theorem mergeVal_self_aux : ∀ n : Nat, ∀ v : JVal, sizeOf v ≤ n → wfJ v →
    mergeVal v v = v := by
  intro n
  induction n using Nat.strong_induction_on with
  | _ n ih =>
    intro v hvn hv
    cases v with
    | str a => rw [mergeVal]
    | num a => rw [mergeVal]
    | bool a => rw [mergeVal]
    | null => rw [mergeVal]
    | obj l =>
      rw [wfJ_obj] at hv
      have heq : mergeVal (.obj l) (.obj l) = .obj (mergeInto l l) := by rw [mergeVal]
      rw [heq]
      congr 1
      refine mergeInto_self l l hv.1 (fun p hp => ?_) (fun p hp => ?_)
      · obtain ⟨a, b⟩ := p
        exact lkp_of_mem_nodup hv.1 hp
      · have hlt : sizeOf p.2 < sizeOf (JVal.obj l) := by
          have h1 := List.sizeOf_lt_of_mem hp
          obtain ⟨a, b⟩ := p
          simp at h1 ⊢
          omega
        exact ih (sizeOf p.2) (by omega) p.2 (le_refl _) (hv.2 p hp)

theorem mergeVal_self {v : JVal} (hv : wfJ v) : mergeVal v v = v :=
  mergeVal_self_aux (sizeOf v) v (le_refl _) hv

theorem merge_self {v : JVal} (hv : wfJ v) : merge v v = v := by
  cases v with
  | obj l =>
    have heq : merge (.obj l) (.obj l) = mergeVal (.obj l) (.obj l) := by
      rw [merge, mergeVal]
    rw [heq]
    exact mergeVal_self hv
  | str a => simp only [merge]
  | num a => simp only [merge]
  | bool a => simp only [merge]
  | null => simp only [merge]

theorem wf_buildFragment : ∀ (path : List String) (v : JVal), wfJ v →
    wfJ (buildFragment path v) := by
  intro path
  induction path with
  | nil =>
    intro v hv
    rw [buildFragment, wfJ_obj]
    simp [nodupKeys, keysOf]
  | cons k rest ih =>
    intro v hv
    cases rest with
    | nil =>
      rw [buildFragment, wfJ_obj]
      refine ⟨by simp [nodupKeys, keysOf], ?_⟩
      intro p hp
      simp at hp
      rw [hp]
      exact hv
    | cons k2 r2 =>
      rw [buildFragment, wfJ_obj]
      refine ⟨by simp [nodupKeys, keysOf], ?_⟩
      intro p hp
      simp at hp
      rw [hp]
      exact ih v hv

theorem wf_foldl_merge : ∀ (frags : List JVal) (acc : JVal), wfJ acc →
    (∀ f ∈ frags, wfJ f) → wfJ (frags.foldl merge acc) := by
  intro frags
  induction frags with
  | nil => intro acc hacc _; simpa using hacc
  | cons f rest ih =>
    intro acc hacc hf
    rw [List.foldl_cons]
    exact ih _ (wf_merge hacc (hf f (List.mem_cons_self _ _)))
      (fun g hg => hf g (List.mem_cons_of_mem _ hg))

theorem wf_unflatten (m : List (String × JVal)) (hm : ∀ p ∈ m, wfJ p.2) :
    wfJ (unflatten m) := by
  unfold unflatten
  refine wf_foldl_merge _ _ ?_ ?_
  · rw [wfJ_obj]; simp [nodupKeys, keysOf]
  · intro f hf
    rcases List.mem_map.mp hf with ⟨p, hp, he⟩
    rw [← he]
    exact wf_buildFragment _ _ (hm p hp)

/-- Deep-merging any wellformed un-flattened configuration over itself
leaves it unchanged. -/
theorem unflatten_idempotent (m : List (String × JVal))
    (hm : ∀ p ∈ m, wfJ p.2) :
    merge (unflatten m) (unflatten m) = unflatten m :=
  merge_self (wf_unflatten m hm)

/-! ## Store lemmas for the frame property -/



theorem lkpRef_append (l1 l2 : List (Nat × JVal)) (r : Nat) :
    lkpRef (l1 ++ l2) r = match lkpRef l1 r with | some v => some v | none => lkpRef l2 r := by
  induction l1 with
  | nil => simp [lkpRef]
  | cons p rest ih =>
    by_cases h : p.1 = r <;> simp [lkpRef, h, ih]

theorem read_alloc_ne (s : Store) (v : JVal) (r : Nat) (h : r ≠ s.next) :
    ((s.alloc v).2).read r = s.read r := by
  unfold Store.alloc Store.read
  simp only [lkpRef_append]
  cases hl : lkpRef s.cells r with
  | some w => simp
  | none =>
    have : ¬ (s.next = r) := fun he => h he.symm
    simp [lkpRef, this]

theorem lkpRef_map_update (l : List (Nat × JVal)) (w r : Nat) (v : JVal) (h : r ≠ w) :
    lkpRef (l.map (fun p => if p.1 = w then (w, v) else p)) r = lkpRef l r := by
  induction l with
  | nil => simp [lkpRef]
  | cons p rest ih =>
    by_cases hp : p.1 = w
    · have hwr : ¬ (w = r) := fun he => h he.symm
      have hpr : ¬ (p.1 = r) := by rw [hp]; exact hwr
      simp [lkpRef, hp, hpr, hwr, ih]
    · by_cases hpr : p.1 = r <;> simp [lkpRef, hp, hpr, ih, h]

theorem read_write_ne (s : Store) (w : Nat) (v : JVal) (r : Nat) (h : r ≠ w) :
    (s.write w v).read r = s.read r := by
  unfold Store.write Store.read
  exact lkpRef_map_update s.cells w r v h

/-- Claim C9 helper: the heap-instrumented resolution allocates the three
clones at the references `s0.next`, `s0.next + 1` and `s0.next + 2` and
writes only to them, so every cell allocated before resolution keeps its
value. -/
theorem getConfigurationHeap_frame (env : HeapEnv) (s0 : Store) (r : Nat)
    (gR sR iR : Nat) (h : r < s0.next) :
    ((getConfigurationHeap env s0 gR sR iR).1).read r = s0.read r := by
  simp only [getConfigurationHeap, cloneDeep, mergeRef]
  rw [read_write_ne _ _ _ _ (by simp [Store.alloc, Store.write]; omega)]
  rw [read_write_ne _ _ _ _ (by simp [Store.alloc, Store.write]; omega)]
  rw [read_write_ne _ _ _ _ (by simp [Store.alloc, Store.write]; omega)]
  rw [read_alloc_ne _ _ _ (by simp [Store.alloc]; omega)]
  rw [read_alloc_ne _ _ _ (by simp [Store.alloc]; omega)]
  rw [read_alloc_ne _ _ _ (by omega)]

/-! ## Claim theorems -/



theorem mergeVal_atom {v : JVal} (d : JVal) (h : isAtom v = true) : mergeVal d v = v := by
  cases v with
  | str a => rw [mergeVal]
  | num a => rw [mergeVal]
  | bool a => rw [mergeVal]
  | null => rw [mergeVal]
  | obj l => simp [isAtom] at h

theorem getConfigurationImpl_sub (env : ConfigEnv) (c : SubCfg) :
    subConfigOf (getConfigurationImpl env).configuration c =
      merge (envSettingsOf env c)
        (orEmpty (unflatten (fileConfigJsonObj env)) (fileKeyOf c)) := by
  cases c <;> rfl

theorem merge_obj_obj (dl sl : List (String × JVal)) :
    merge (.obj dl) (.obj sl) = .obj (mergeInto dl sl) := rfl

/-- Claim C2: on the explicit-command path, a sort result requiring a sort
produces exactly one batched apply-edits call holding all the delete edits,
followed (in the resolution continuation of that batch, hence strictly
after it settles) by exactly one apply-edits call holding the single insert
edit of the sorted text plus a trailing line break at the computed line,
character 0; nothing is registered with the save interception. -/
theorem C2_explicit_commit_sequence (d : ImportData) (h : d.isSortRequired = true) :
    sortActiveDocumentImports false (.ok d) =
      { waitUntilEdits := []
        applyEditsCalls := [deleteEditsOf d, [insertEditOf d]]
        statusMessages := [] } := by
  simp [sortActiveDocumentImports, h]

/-- Concrete instance of claim C2 at a sort result with two delete
ranges. -/
def sampleImportData : ImportData :=
  { isSortRequired := true
    rangesToDelete := [⟨0, 0, 3, 0⟩, ⟨5, 2, 6, 0⟩]
    firstLineNumberToInsertText := 0
    sortedImportsText := "import a;" }

theorem C2_explicit_commit_sequence_witness :
    sampleImportData.isSortRequired = true
    ∧ sortActiveDocumentImports false (.ok sampleImportData) =
      { waitUntilEdits := []
        applyEditsCalls := [deleteEditsOf sampleImportData, [insertEditOf sampleImportData]]
        statusMessages := [] } :=
  ⟨rfl, C2_explicit_commit_sequence sampleImportData rfl⟩

/-- Claim C10: the edit list registered on the pre-save path coincides with
the edits the explicit-command path applies in its two batches, and both
equal the edit list described by the specification: the delete edits in
sequence order followed by the single insert edit. -/
theorem C10_commit_protocols_agree (d : ImportData) (h : d.isSortRequired = true) :
    (sortActiveDocumentImports true (.ok d)).waitUntilEdits = [specCombinedEdits d]
    ∧ (sortActiveDocumentImports false (.ok d)).applyEditsCalls
        = [deleteEditsOf d, [insertEditOf d]]
    ∧ deleteEditsOf d ++ [insertEditOf d] = specCombinedEdits d := by
  refine ⟨?_, ?_, ?_⟩ <;>
    simp [sortActiveDocumentImports, h, specCombinedEdits, deleteEditsOf, insertEditOf]

theorem C10_commit_protocols_agree_witness :
    sampleImportData.isSortRequired = true
    ∧ (sortActiveDocumentImports true (.ok sampleImportData)).waitUntilEdits
        = [specCombinedEdits sampleImportData]
    ∧ (sortActiveDocumentImports false (.ok sampleImportData)).applyEditsCalls
        = [deleteEditsOf sampleImportData, [insertEditOf sampleImportData]]
    ∧ deleteEditsOf sampleImportData ++ [insertEditOf sampleImportData]
        = specCombinedEdits sampleImportData :=
  ⟨rfl, C10_commit_protocols_agree sampleImportData rfl⟩

/-- Claim C5 counterexample: an absent document with mismatch tolerance off
is rejected with no notice at all, while the claim demands exactly one
user-visible notice for every ineligible candidate including an absent
document. -/
theorem C5_absent_document_counterexample :
    isSortAllowed none false = (false, []) := rfl

/-- Claim C5 as amended: sorting is allowed exactly for a present document
whose language identifier is typescript or typescriptreact; a present
document of another language produces exactly one notice naming the
supported identifiers when the mismatch is not tolerated and none when it
is tolerated; an absent document is always rejected silently. -/
theorem C5_eligibility_gate (doc : Option TextDocument) (ig : Bool) :
    ((isSortAllowed doc ig).1 = true ↔
      ∃ d, doc = some d ∧ (d.languageId = "typescript" ∨ d.languageId = "typescriptreact"))
    ∧ ((isSortAllowed doc ig).2 =
        match doc with
        | none => []
        | some d =>
          if (d.languageId = "typescript" ∨ d.languageId = "typescriptreact") ∨ ig = true
          then [] else [supportedLanguagesMsg]) := by
  cases doc with
  | none => simp [isSortAllowed]
  | some d =>
    by_cases hl : d.languageId = "typescript" ∨ d.languageId = "typescriptreact"
    · simp [isSortAllowed, hl]
    · cases ig <;> simp [isSortAllowed, hl]



theorem dirPipeline_replicate (n : Nat) : ∀ (acc : Nat) (tail : List StreamEv),
    dirPipeline acc (List.replicate n .next ++ tail) =
      ((List.range n).map (fun i => s!"{acc + i + 1} - sorted")
          ++ (dirPipeline (acc + n) tail).1,
        (dirPipeline (acc + n) tail).2) := by
  induction n with
  | zero => intro acc tail; simp [dirPipeline]
  | succ m ih =>
    intro acc tail
    rw [List.replicate_succ, List.cons_append]
    simp only [dirPipeline]
    rw [ih (acc + 1) tail]
    rw [List.range_succ_eq_map]
    simp only [List.map_cons, List.map_map, List.cons_append]
    have hmn : acc + 1 + m = acc + (m + 1) := by omega
    rw [hmn]
    have hmap : List.map (fun i => s!"{acc + 1 + i + 1} - sorted") (List.range m)
        = List.map ((fun i => s!"{acc + i + 1} - sorted") ∘ Nat.succ) (List.range m) := by
      refine List.map_congr_left ?_
      intro i hi
      have he : acc + 1 + i + 1 = acc + Nat.succ i + 1 := by omega
      simp only [Function.comp_apply, he]
    rw [hmap]

/-- Claim C8: an error-free directory batch over N files shows the initial
progress text, then the counts 1 through N in increasing order, then the
terminal done text, and schedules the delayed hide; a stream that fails
after N successful files stops there, leaves the indicator at the last
reported count, schedules no hide, and propagates the error through the
returned promise. -/
theorem C8_directory_progress :
    (∀ N : Nat,
      sortImportsInDirectories (List.replicate N .next) =
        { statusTexts := "Import sorter: sorting..."
            :: (List.range N).map (fun i => s!"{i + 1} - sorted") ++ ["done."]
          hideScheduled := true
          outcome := .ok () })
    ∧ (∀ (N : Nat) (e : String) (tail : List StreamEv),
      sortImportsInDirectories (List.replicate N .next ++ .error e :: tail) =
        { statusTexts := "Import sorter: sorting..."
            :: (List.range N).map (fun i => s!"{i + 1} - sorted")
          hideScheduled := false
          outcome := .error e }) := by
  constructor
  · intro N
    have h := dirPipeline_replicate N 0 []
    rw [List.append_nil] at h
    simp only [sortImportsInDirectories, h, dirPipeline]
    simp
  · intro N e tail
    have h := dirPipeline_replicate N 0 (.error e :: tail)
    simp only [sortImportsInDirectories, h, dirPipeline]
    simp

/-- Claim C4 counterexample: a directory batch whose stream fails after two
files leaves the handler with a rejected promise carrying the raw error and
shows no user-visible message embedding the error description, while the
claim demands that every such error be caught, converted into exactly one
message, and never propagate. -/
theorem C4_directory_error_counterexample :
    (sortImportsInDirectories [.next, .next, .error "parse failure"]).outcome
        = .error "parse failure"
    ∧ (sortImportsInDirectories [.next, .next, .error "parse failure"]).statusTexts
        = ["Import sorter: sorting...", "1 - sorted", "2 - sorted"] := by
  constructor <;> rfl

/-- Claim C4 as amended: on the two single-document paths an exception
raised while computing sort data is caught and converted into exactly one
status message embedding the error description and nothing else happens,
while on the directory-batch path an error is neither caught nor converted:
no message mentions it and the rejection propagates out of the handler. -/
theorem C4_error_handling (e : String) (isEventPath : Bool) (N : Nat)
    (tail : List StreamEv) :
    sortActiveDocumentImports isEventPath (.error e) =
      { waitUntilEdits := []
        applyEditsCalls := []
        statusMessages := [s!"Typescript import sorter failed with - {e}. Please log a bug."] }
    ∧ (sortImportsInDirectories (List.replicate N .next ++ .error e :: tail)).outcome
        = .error e
    ∧ (sortImportsInDirectories (List.replicate N .next ++ .error e :: tail)).statusTexts
        = "Import sorter: sorting..." :: (List.range N).map (fun i => s!"{i + 1} - sorted") := by
  refine ⟨rfl, ?_, ?_⟩
  · have h := dirPipeline_replicate N 0 (.error e :: tail)
    simp only [sortImportsInDirectories, h, dirPipeline]
  · have h := dirPipeline_replicate N 0 (.error e :: tail)
    simp only [sortImportsInDirectories, h, dirPipeline]
    simp



/-- Claim C3: on the pre-save path, a falsy sortOnBeforeSave flag makes the
handler do nothing beyond configuration resolution; a truthy flag with an
eligible document and a sort result requiring a sort makes the handler
issue no direct apply-edits call and register exactly one combined edit
list, the delete edits followed by the single insert edit, with the save
interception before returning. -/
theorem C3_presave_registration (env : ConfigEnv) (doc : Option TextDocument)
    (g : Except String ImportData) :
    (jsTruthyOpt (jlookup (getConfigurationImpl env).configuration.generalConfiguration
        "sortOnBeforeSave") = false →
      sortModifiedDocumentImportsFromOnBeforeSaveCommand env doc g =
        { configWarnings := (getConfigurationImpl env).warnings
          gateNotices := []
          sortOutput := noSortOutput })
    ∧ (∀ d : ImportData,
        jsTruthyOpt (jlookup (getConfigurationImpl env).configuration.generalConfiguration
          "sortOnBeforeSave") = true →
        (isSortAllowed doc true).1 = true →
        g = .ok d → d.isSortRequired = true →
        (sortModifiedDocumentImportsFromOnBeforeSaveCommand env doc g).sortOutput.applyEditsCalls = []
        ∧ (sortModifiedDocumentImportsFromOnBeforeSaveCommand env doc g).sortOutput.waitUntilEdits
            = [deleteEditsOf d ++ [insertEditOf d]]
        ∧ (sortModifiedDocumentImportsFromOnBeforeSaveCommand env doc g).sortOutput.statusMessages
            = []) := by
  constructor
  · intro h
    simp [sortModifiedDocumentImportsFromOnBeforeSaveCommand, h]
  · intro d hflag hgate hg hreq
    subst hg
    simp [sortModifiedDocumentImportsFromOnBeforeSaveCommand, hflag, hgate,
      sortActiveDocumentImports, hreq]

/-- Environment for the pre-save witness: flag enabled, default path, no
configuration file. -/
def samplePresaveEnv : ConfigEnv :=
  { rootPath := "/w"
    defaultConfigurationFilePath := "import-sorter.json"
    generalSettings := .obj [("configurationFilePath", .str "import-sorter.json"),
      ("sortOnBeforeSave", .bool true)]
    sortSettings := .obj []
    importStringSettings := .obj []
    fsExists := fun _ => false
    fileContents := fun _ => [] }

theorem C3_presave_registration_witness :
    jsTruthyOpt (jlookup (getConfigurationImpl samplePresaveEnv).configuration.generalConfiguration
        "sortOnBeforeSave") = true
    ∧ (isSortAllowed (some ⟨"typescript"⟩) true).1 = true
    ∧ sampleImportData.isSortRequired = true
    ∧ ((sortModifiedDocumentImportsFromOnBeforeSaveCommand samplePresaveEnv
          (some ⟨"typescript"⟩) (.ok sampleImportData)).sortOutput.applyEditsCalls = []
      ∧ (sortModifiedDocumentImportsFromOnBeforeSaveCommand samplePresaveEnv
          (some ⟨"typescript"⟩) (.ok sampleImportData)).sortOutput.waitUntilEdits
          = [deleteEditsOf sampleImportData ++ [insertEditOf sampleImportData]]
      ∧ (sortModifiedDocumentImportsFromOnBeforeSaveCommand samplePresaveEnv
          (some ⟨"typescript"⟩) (.ok sampleImportData)).sortOutput.statusMessages = []) := by
  have hflag : jsTruthyOpt (jlookup
      (getConfigurationImpl samplePresaveEnv).configuration.generalConfiguration
      "sortOnBeforeSave") = true := by
    simp [getConfigurationImpl, samplePresaveEnv, fileConfigJsonObj, configFullPath,
      configuredPath, unflatten, orEmpty, jlookup, lkp, merge, mergeInto,
      jsTruthyOpt, jsTruthy]
  refine ⟨hflag, rfl, rfl, ?_⟩
  exact (C3_presave_registration samplePresaveEnv (some ⟨"typescript"⟩)
    (.ok sampleImportData)).2 sampleImportData hflag rfl rfl rfl

/-- Claim C9: configuration resolution never mutates the host-owned
settings objects: after the heap-instrumented resolution runs, every one of
the three settings references read by the host lookup still holds its
original value (the mutating merges write only into the fresh clones). -/
theorem C9_no_host_mutation (env : HeapEnv) (s0 : Store) (gR sR iR : Nat)
    (hg : gR < s0.next) (hsr : sR < s0.next) (hi : iR < s0.next) :
    ((getConfigurationHeap env s0 gR sR iR).1).read gR = s0.read gR
    ∧ ((getConfigurationHeap env s0 gR sR iR).1).read sR = s0.read sR
    ∧ ((getConfigurationHeap env s0 gR sR iR).1).read iR = s0.read iR :=
  ⟨getConfigurationHeap_frame env s0 gR gR sR iR hg,
   getConfigurationHeap_frame env s0 sR gR sR iR hsr,
   getConfigurationHeap_frame env s0 iR gR sR iR hi⟩

/-- A store holding three host-owned settings objects. -/
def sampleStore : Store :=
  { cells := [(0, .obj [("configurationFilePath", .str "import-sorter.json")]),
      (1, .obj [("a", .num 1)]), (2, .obj [])]
    next := 3 }

/-- Heap environment for the frame witness. -/
def sampleHeapEnv : HeapEnv :=
  { rootPath := "/w"
    defaultConfigurationFilePath := "import-sorter.json"
    fsExists := fun _ => true
    fileContents := fun _ => [("importSorter.sortConfiguration.a", .num 7)] }

theorem C9_no_host_mutation_witness :
    (0 < sampleStore.next ∧ 1 < sampleStore.next ∧ 2 < sampleStore.next)
    ∧ (((getConfigurationHeap sampleHeapEnv sampleStore 0 1 2).1).read 0 = sampleStore.read 0
      ∧ ((getConfigurationHeap sampleHeapEnv sampleStore 0 1 2).1).read 1 = sampleStore.read 1
      ∧ ((getConfigurationHeap sampleHeapEnv sampleStore 0 1 2).1).read 2 = sampleStore.read 2) :=
  ⟨⟨by decide, by decide, by decide⟩,
   C9_no_host_mutation sampleHeapEnv sampleStore 0 1 2 (by decide) (by decide) (by decide)⟩



/-- Claim C7: a missing configuration file produces exactly one warning
when the configured relative path differs from the compiled-in default and
none when it equals it (or when the file exists); in both missing cases
resolution succeeds with an empty file fragment, returning the editor
settings values unchanged. -/
theorem C7_missing_config_file (env : ConfigEnv) :
    (env.fsExists (configFullPath env) = false →
      strictEqStr (configuredPathValue env) env.defaultConfigurationFilePath = false →
      (getConfigurationImpl env).warnings = [configNotFoundMsg])
    ∧ (env.fsExists (configFullPath env) = false →
      strictEqStr (configuredPathValue env) env.defaultConfigurationFilePath = true →
      (getConfigurationImpl env).warnings = [])
    ∧ (env.fsExists (configFullPath env) = true →
      (getConfigurationImpl env).warnings = [])
    ∧ (env.fsExists (configFullPath env) = false →
      (∀ dl, env.sortSettings = .obj dl →
        (getConfigurationImpl env).configuration.sortConfiguration = .obj dl)
      ∧ (∀ dl, env.importStringSettings = .obj dl →
        (getConfigurationImpl env).configuration.importStringConfiguration = .obj dl)
      ∧ (∀ dl, env.generalSettings = .obj dl →
        (getConfigurationImpl env).configuration.generalConfiguration = .obj dl)) := by
  refine ⟨?_, ?_, ?_, ?_⟩
  · intro hm hne
    simp [getConfigurationImpl, hm, hne]
  · intro hm heq
    simp [getConfigurationImpl, hm, heq]
  · intro hex
    simp [getConfigurationImpl, hex]
  · intro hm
    refine ⟨?_, ?_, ?_⟩ <;> intro dl hdl <;>
      simp [getConfigurationImpl, fileConfigJsonObj, hm, hdl, unflatten, orEmpty,
        jlookup, lkp, merge, mergeInto]

/-- Environment for the missing-file witness: a configured path that
differs from the default and a file system without the file. -/
def sampleMissingEnv : ConfigEnv :=
  { rootPath := "/w"
    defaultConfigurationFilePath := "import-sorter.json"
    generalSettings := .obj [("configurationFilePath", .str "custom.json")]
    sortSettings := .obj [("x", .num 5)]
    importStringSettings := .obj []
    fsExists := fun _ => false
    fileContents := fun _ => [] }

theorem C7_missing_config_file_witness :
    sampleMissingEnv.fsExists (configFullPath sampleMissingEnv) = false
    ∧ strictEqStr (configuredPathValue sampleMissingEnv)
        sampleMissingEnv.defaultConfigurationFilePath = false
    ∧ (getConfigurationImpl sampleMissingEnv).warnings = [configNotFoundMsg]
    ∧ (getConfigurationImpl sampleMissingEnv).configuration.sortConfiguration
        = .obj [("x", .num 5)] :=
  ⟨rfl, by decide,
   (C7_missing_config_file sampleMissingEnv).1 rfl (by decide),
   ((C7_missing_config_file sampleMissingEnv).2.2.2 rfl).1 _ rfl⟩

/-- Claim C1: with the host settings value encoding the compiled-in
defaults under the user settings, the resolved sub-configuration obeys the
precedence project file over editor settings over defaults, per key: a
primitive file value wins outright, a key absent from the file keeps a
primitive editor-settings value, a key absent from both falls through to
the defaults, and the result binds every key at most once. -/
theorem C1_configuration_precedence (env : ConfigEnv) (c : SubCfg)
    (dl ul fl : List (String × JVal)) (k : String)
    (henv : envSettingsOf env c = hostSettingsValue (.obj dl) (.obj ul))
    (hfile : orEmpty (unflatten (fileConfigJsonObj env)) (fileKeyOf c) = .obj fl)
    (hul : nodupKeys ul) (hfl : nodupKeys fl) :
    (∀ v, lkp fl k = some v → isAtom v = true →
      jlookup (subConfigOf (getConfigurationImpl env).configuration c) k = some v)
    ∧ (lkp fl k = none → ∀ w, lkp ul k = some w → isAtom w = true →
      jlookup (subConfigOf (getConfigurationImpl env).configuration c) k = some w)
    ∧ (lkp fl k = none → lkp ul k = none →
      jlookup (subConfigOf (getConfigurationImpl env).configuration c) k = lkp dl k)
    ∧ (nodupKeys dl →
      ∃ rl, subConfigOf (getConfigurationImpl env).configuration c = .obj rl
        ∧ nodupKeys rl) := by
  have hsub : subConfigOf (getConfigurationImpl env).configuration c
      = .obj (mergeInto (mergeInto dl ul) fl) := by
    rw [getConfigurationImpl_sub, henv, hfile, hostSettingsValue, merge_obj_obj,
      merge_obj_obj]
  rw [hsub]
  refine ⟨?_, ?_, ?_, ?_⟩
  · intro v hv hatom
    simp only [jlookup]
    rw [lkp_mergeInto fl (mergeInto dl ul) k hfl]
    simp only [hv]
    cases h2 : lkp (mergeInto dl ul) k with
    | some dv => simp only [mergeVal_atom dv hatom]
    | none => simp only []
  · intro hnone w hw hatom
    simp only [jlookup]
    rw [lkp_mergeInto fl (mergeInto dl ul) k hfl]
    simp only [hnone]
    rw [lkp_mergeInto ul dl k hul]
    simp only [hw]
    cases h2 : lkp dl k with
    | some dv => simp only [mergeVal_atom dv hatom]
    | none => simp only []
  · intro h1 h2
    simp only [jlookup]
    rw [lkp_mergeInto fl (mergeInto dl ul) k hfl]
    simp only [h1]
    rw [lkp_mergeInto ul dl k hul]
    simp only [h2]
  · intro hdl
    exact ⟨mergeInto (mergeInto dl ul) fl, rfl,
      nodupKeys_mergeInto fl (mergeInto dl ul) (nodupKeys_mergeInto ul dl hdl)⟩

/-- Environment for the precedence witness: defaults, user settings and a
project file all bind the key a of the sort sub-configuration. -/
def sampleFileEnv : ConfigEnv :=
  { rootPath := "/w"
    defaultConfigurationFilePath := "import-sorter.json"
    generalSettings := hostSettingsValue
      (.obj [("configurationFilePath", .str "import-sorter.json")]) (.obj [])
    sortSettings := hostSettingsValue (.obj [("a", .num 0), ("c", .num 3)])
      (.obj [("a", .num 9), ("b", .num 5)])
    importStringSettings := hostSettingsValue (.obj []) (.obj [])
    fsExists := fun _ => true
    fileContents := fun _ => [("importSorter.sortConfiguration.a", .num 1)] }

theorem C1_configuration_precedence_witness :
    envSettingsOf sampleFileEnv .sort
      = hostSettingsValue (.obj [("a", .num 0), ("c", .num 3)])
          (.obj [("a", .num 9), ("b", .num 5)])
    ∧ orEmpty (unflatten (fileConfigJsonObj sampleFileEnv)) (fileKeyOf .sort)
      = .obj [("a", .num 1)]
    ∧ nodupKeys [("a", JVal.num 9), ("b", JVal.num 5)]
    ∧ nodupKeys [("a", JVal.num 1)]
    ∧ jlookup (subConfigOf (getConfigurationImpl sampleFileEnv).configuration .sort) "a"
      = some (.num 1) := by
  have hn1 : nodupKeys [("a", JVal.num 9), ("b", JVal.num 5)] := by
    unfold nodupKeys keysOf; decide
  have hn2 : nodupKeys [("a", JVal.num 1)] := by
    unfold nodupKeys keysOf; decide
  have h2 : orEmpty (unflatten (fileConfigJsonObj sampleFileEnv)) (fileKeyOf .sort)
      = .obj [("a", .num 1)] := by
    simp [fileConfigJsonObj, sampleFileEnv, unflatten, fileKeyOf,
      show stripKeys "importSorter.sortConfiguration.a" = ["sortConfiguration", "a"]
        from by decide,
      buildFragment, merge, mergeInto, orEmpty, jlookup, lkp, jsTruthy]
  refine ⟨rfl, h2, hn1, hn2, ?_⟩
  exact (C1_configuration_precedence sampleFileEnv .sort
    [("a", .num 0), ("c", .num 3)] [("a", .num 9), ("b", .num 5)] [("a", .num 1)] "a"
    rfl h2 hn1 hn2).1 (.num 1) rfl rfl



/-- The example of the claim, in file order. -/
def exampleOrderA : List (String × JVal) :=
  [("importSorter.sortConfiguration.a", .num 1), ("importSorter.sortConfiguration.b", .num 2)]

/-- The example of the claim, in the opposite key iteration order. -/
def exampleOrderB : List (String × JVal) :=
  [("importSorter.sortConfiguration.b", .num 2), ("importSorter.sortConfiguration.a", .num 1)]

/-- Claim C6 counterexample: the two iteration orders of the key set
containing importSorter.a and a produce different mappings (the key a ends
up bound to whichever value came last), so un-flattening is not independent
of key iteration order; moreover a namespace segment in the middle of a
key is stripped too, so the stripping is not restricted to a leading
segment. -/
theorem C6_unflatten_counterexample :
    jlookup (unflatten [("importSorter.a", .num 1), ("a", .num 2)]) "a" = some (.num 2)
    ∧ jlookup (unflatten [("a", .num 2), ("importSorter.a", .num 1)]) "a" = some (.num 1)
    ∧ unflatten [("a.importSorter.b", .num 1)] = .obj [("a", .obj [("b", .num 1)])] := by
  refine ⟨?_, ?_, ?_⟩ <;>
    simp [unflatten,
      show stripKeys "a" = ["a"] from by decide,
      show stripKeys "importSorter.a" = ["a"] from by decide,
      show stripKeys "a.importSorter.b" = ["a", "b"] from by decide,
      buildFragment, merge, mergeInto, mergeVal, setKey, lkp, jlookup]

/-- Claim C6 as amended: each dotted key expands into the nested fragment
obtained after dropping every segment equal to the extension namespace; the
fragments are deep-overlaid in key order, deep-merging a wellformed
un-flattened result with itself changes nothing, and the example of the
claim yields the mapping sortConfiguration maps a to 1 and b to 2 under
both key orders (the two orders agree as mappings, differing only in
insertion order); order independence fails only for key sets whose
stripped paths collide. -/
theorem C6_unflatten_structure :
    (∀ (k : String) (v : JVal), unflatten [(k, v)] = buildFragment (stripKeys k) v)
    ∧ (∀ m : List (String × JVal), (∀ p ∈ m, wfJ p.2) →
        merge (unflatten m) (unflatten m) = unflatten m)
    ∧ unflatten exampleOrderA = .obj [("sortConfiguration", .obj [("a", .num 1), ("b", .num 2)])]
    ∧ unflatten exampleOrderB = .obj [("sortConfiguration", .obj [("b", .num 2), ("a", .num 1)])]
    ∧ (∀ k2 : String, lkp [("a", JVal.num 1), ("b", JVal.num 2)] k2
        = lkp [("b", JVal.num 2), ("a", JVal.num 1)] k2) := by
  refine ⟨?_, ?_, ?_, ?_, ?_⟩
  · intro k v
    cases h : stripKeys k with
    | nil => simp [unflatten, h, buildFragment, merge, mergeInto]
    | cons a rest =>
      cases rest with
      | nil => simp [unflatten, h, buildFragment, merge, mergeInto, setKey, lkp]
      | cons b r2 => simp [unflatten, h, buildFragment, merge, mergeInto, setKey, lkp]
  · exact fun m hm => unflatten_idempotent m hm
  · simp [unflatten, exampleOrderA,
      show stripKeys "importSorter.sortConfiguration.a" = ["sortConfiguration", "a"]
        from by decide,
      show stripKeys "importSorter.sortConfiguration.b" = ["sortConfiguration", "b"]
        from by decide,
      buildFragment, merge, mergeInto, mergeVal, setKey, lkp]
  · simp [unflatten, exampleOrderB,
      show stripKeys "importSorter.sortConfiguration.a" = ["sortConfiguration", "a"]
        from by decide,
      show stripKeys "importSorter.sortConfiguration.b" = ["sortConfiguration", "b"]
        from by decide,
      buildFragment, merge, mergeInto, mergeVal, setKey, lkp]
  · intro k2
    by_cases ha : "a" = k2
    · have hb : ¬ ("b" = k2) := by rw [← ha]; decide
      simp [lkp, ha, hb]
    · by_cases hb : "b" = k2 <;> simp [lkp, ha, hb]

theorem C6_unflatten_structure_witness :
    (∀ p ∈ exampleOrderA, wfJ p.2)
    ∧ merge (unflatten exampleOrderA) (unflatten exampleOrderA) = unflatten exampleOrderA := by
  have h : ∀ p ∈ exampleOrderA, wfJ p.2 := by
    intro p hp
    simp only [exampleOrderA, List.mem_cons, List.not_mem_nil, or_false] at hp
    rcases hp with h1 | h1 <;> rw [h1] <;> exact wfJ_atom (by decide)
  exact ⟨h, C6_unflatten_structure.2.1 exampleOrderA h⟩

end ImportSorter
